import Mathlib

/-!
Shallow embedding of the race-track visualization component
(`race-track-visualization.tsx` / `race-track-3d.tsx`).

Coordinates are modelled by `ℚ` (exact arithmetic standing in for JS
`number`; the claims under verification all restrict to inputs whose
coordinates are numbers, under which the runtime `typeof`/`isNaN` validity
checks of the source are identically true and are therefore dropped from
the embedding).  JS `Math.sqrt` is irrational on most rationals; wherever
the source normalizes a vector we either work with squared distances
(`Math.sqrt` is strictly increasing on nonnegative reals, so comparisons
and argmins are unchanged) or pass the norm as an explicit value
constrained by a `nrm * nrm = ‖v‖²` hypothesis.
-/

namespace Track

/-- `TrackPoint` from `race-track-visualization.tsx`: `x y z : number`,
optional `distance` and `sector`. -/
structure TrackPoint where
  x : ℚ
  y : ℚ
  z : ℚ
  distance : Option ℚ := none
  sector : Option ℚ := none
deriving DecidableEq

/-- Default point used only to total out list indexing that the source
performs at indices proved to be in range. -/
def dfltPoint : TrackPoint := ⟨0, 0, 0, none, none⟩

/-- The circular window indices of the inner loop of `smoothPoints`:
for `j` ranging over `-halfWindow .. halfWindow` the source reads index
`(i + j + n) % n`.  Here `j` is shifted to `0 .. 2*halfWindow` so the
index is `(i + j + n - halfWindow) % n` (the natural subtraction is exact
because `i + j + n ≥ n > halfWindow`). -/
def windowIndices (n i halfWindow : ℕ) : List ℕ :=
  (List.range (2 * halfWindow + 1)).map (fun j => (i + j + n - halfWindow) % n)

/-- `smoothPoints` from `race-track-3d.tsx`.  With `level = 0` or fewer
than 3 points the input is returned unchanged.  Otherwise each output
point averages the coordinates over the circular window
`windowSize = min (2*level+1) n`, `halfWindow = windowSize / 2`,
`j = -halfWindow .. halfWindow`; with all-numeric points (enforced here by
the type) every window point passes the source's validity test, so the
divisor `count` equals the window length `2*halfWindow + 1` and the
`count > 0` branch is always taken; `distance` and `sector` are copied
from the input point at the same index.  The source's final
`smoothed.length > 0 ? smoothed : points` fallback is the first branch,
since the map over `range n` with `n ≥ 3` is nonempty. -/
def smoothPoints (points : List TrackPoint) (level : ℕ) : List TrackPoint :=
  if level = 0 ∨ points.length < 3 then points
  else
    let n := points.length
    let windowSize := min (2 * level + 1) n
    let halfWindow := windowSize / 2
    (List.range n).map (fun i =>
      let idxs := windowIndices n i halfWindow
      let count : ℚ := idxs.length
      { x := (idxs.map (fun k => (points.getD k dfltPoint).x)).sum / count
        y := (idxs.map (fun k => (points.getD k dfltPoint).y)).sum / count
        z := (idxs.map (fun k => (points.getD k dfltPoint).z)).sum / count
        distance := (points.getD i dfltPoint).distance
        sector := (points.getD i dfltPoint).sector })

/-- Written from the SPEC's words, for comparison with `smoothPoints`:
the arithmetic mean of coordinate `f` over the circular window of `w`
consecutive input points centred at index `i` (for odd `w` the window is
`i - (w-1)/2 .. i + (w-1)/2`, indices taken modulo `n`). -/
def specCircularMean (points : List TrackPoint) (w i : ℕ) (f : TrackPoint → ℚ) : ℚ :=
  let n := points.length
  (((List.range w).map (fun j => f (points.getD ((i + j + n - (w - 1) / 2) % n) dfltPoint))).sum) / w

def c1pts : List TrackPoint :=
  [⟨0, 0, 0, none, none⟩, ⟨1, 0, 0, none, none⟩, ⟨2, 0, 0, none, none⟩, ⟨3, 0, 0, none, none⟩]

def c1wpts : List TrackPoint :=
  [⟨0, 0, 0, none, none⟩, ⟨3, 0, 0, none, none⟩, ⟨6, 0, 0, none, none⟩]

def c8wpts : List TrackPoint :=
  [⟨0, 0, 0, some 1, some 2⟩, ⟨3, 1, 0, some 3, some 4⟩, ⟨6, 2, 0, some 5, some 6⟩]

/-- A `[number, number, number]` coordinate triple. -/
structure Vec3 where
  x : ℚ
  y : ℚ
  z : ℚ
deriving DecidableEq

def dfltVec : Vec3 := ⟨0, 0, 0⟩

/-- Read the tuple entry at index `0 | 1 | 2`. -/
def Vec3.coord (v : Vec3) : Fin 3 → ℚ
  | 0 => v.x
  | 1 => v.y
  | 2 => v.z

/-- `point[coordinate] = value` on a copied tuple. -/
def Vec3.setCoord (v : Vec3) : Fin 3 → ℚ → Vec3
  | 0, a => { v with x := a }
  | 1, a => { v with y := a }
  | 2, a => { v with z := a }

/-- `"straight" | "curve"` segment kinds of `AlternateRoute.segments`. -/
inductive SegKind where
  | straight
  | curve
deriving DecidableEq

/-- `AlternateRoute` from `race-track-visualization.tsx`; the two optional
fields model the `?:` TS fields (`none` = absent/undefined). -/
structure AlternateRoute where
  id : String
  name : String
  startPoint : Vec3
  endPoint : Vec3
  controlPoints : Option (List Vec3) := none
  segments : Option (List SegKind) := none
deriving DecidableEq

def dfltRoute : AlternateRoute := ⟨"", "", dfltVec, dfltVec, none, none⟩

/-- `updateControlPoint` from `race-track-visualization.tsx`: for the route
whose `id` matches and whose `controlPoints` is present (in JS an empty
array is also truthy, hence the test is presence, not nonemptiness), the
control point at `pointIndex` is copied, its entry `coordinate` set to
`value`, and stored back at `pointIndex`; all other routes pass through. -/
def updateRouteFn (routeId : String) (pointIndex : ℕ) (coordinate : Fin 3) (value : ℚ)
    (route : AlternateRoute) : AlternateRoute :=
  match route.controlPoints with
  | some cps =>
      if route.id = routeId then
        let cps2 := cps.set pointIndex ((cps.getD pointIndex dfltVec).setCoord coordinate value)
        { route with controlPoints := some cps2 }
      else route
  | none => route

def updateControlPoint (routes : List AlternateRoute) (routeId : String)
    (pointIndex : ℕ) (coordinate : Fin 3) (value : ℚ) : List AlternateRoute :=
  routes.map (updateRouteFn routeId pointIndex coordinate value)

/-- JS `Array.prototype.filter` with the element-index callback, as used by
`deleteControlPoint` (`.filter((_, i) => i !== pointIndex)`); `start` is the
index of the first element of the remaining list. -/
def filterWithIndex {α : Type} (p : ℕ → α → Bool) : List α → ℕ → List α
  | [], _ => []
  | a :: l, i => if p i a then a :: filterWithIndex p l (i + 1) else filterWithIndex p l (i + 1)

/-- `deleteControlPoint` from `race-track-visualization.tsx`: the matching
route with present `controlPoints` gets the point at `pointIndex` filtered
out; if the remaining list is empty the field becomes `undefined`. -/
def deleteRouteFn (routeId : String) (pointIndex : ℕ) (route : AlternateRoute) : AlternateRoute :=
  match route.controlPoints with
  | some cps =>
      if route.id = routeId then
        let newControlPoints := filterWithIndex (fun i _ => i ≠ pointIndex) cps 0
        { route with controlPoints := if 0 < newControlPoints.length then some newControlPoints else none }
      else route
  | none => route

def deleteControlPoint (routes : List AlternateRoute) (routeId : String)
    (pointIndex : ℕ) : List AlternateRoute :=
  routes.map (deleteRouteFn routeId pointIndex)

/-- Models `Number.parseFloat(s) || 0` from `addControlPoint`: the parse
result is `none` when `parseFloat` yields `NaN` and `some q` when it yields
the number `q`; `|| 0` replaces the falsy results `NaN` and `0` by `0`
(which is the identity on `some 0`). -/
def parseFloatOr0 : Option ℚ → ℚ
  | none => 0
  | some v => v

/-- `addControlPoint` from `race-track-visualization.tsx`, with the three
coordinate input strings already parsed (`none` = `NaN`): the route whose
`id` matches gets the parsed point appended to its control-point list
(`route.controlPoints || []` starts from the empty list when absent). -/
def addRouteFn (routeId : String) (newPointX newPointY newPointZ : Option ℚ)
    (route : AlternateRoute) : AlternateRoute :=
  if route.id = routeId then
    let controlPoints := route.controlPoints.getD []
    let newPoint : Vec3 := ⟨parseFloatOr0 newPointX, parseFloatOr0 newPointY, parseFloatOr0 newPointZ⟩
    { route with controlPoints := some (controlPoints ++ [newPoint]) }
  else route

def addControlPoint (routes : List AlternateRoute) (routeId : String)
    (newPointX newPointY newPointZ : Option ℚ) : List AlternateRoute :=
  routes.map (addRouteFn routeId newPointX newPointY newPointZ)

def c6routes : List AlternateRoute :=
  [{ id := "a", name := "A", startPoint := ⟨0, 0, 0⟩, endPoint := ⟨1, 1, 1⟩,
     controlPoints := some [⟨1, 2, 3⟩, ⟨4, 5, 6⟩], segments := none },
   { id := "b", name := "B", startPoint := ⟨0, 0, 0⟩, endPoint := ⟨2, 2, 2⟩ }]

def c7routes : List AlternateRoute :=
  [{ id := "a", name := "A", startPoint := ⟨0, 0, 0⟩, endPoint := ⟨1, 1, 1⟩,
     controlPoints := some [⟨1, 2, 3⟩], segments := none },
   { id := "b", name := "B", startPoint := ⟨0, 0, 0⟩, endPoint := ⟨2, 2, 2⟩ }]

def c9routes : List AlternateRoute :=
  [{ id := "a", name := "A", startPoint := ⟨0, 0, 0⟩, endPoint := ⟨1, 1, 1⟩ },
   { id := "b", name := "B", startPoint := ⟨0, 0, 0⟩, endPoint := ⟨2, 2, 2⟩,
     controlPoints := some [⟨7, 8, 9⟩] }]

/-- The curve types of `THREE.CatmullRomCurve3`; the component uses only
`"centripetal"` (the constructor's default and the explicit choice of the
segment branch). -/
inductive CurveType where
  | centripetal
  | chordal
  | catmullrom
deriving DecidableEq

/-- One element added to the `THREE.CurvePath` built by
`AlternateRouteTrack`: either a `LineCurve3` or a `CatmullRomCurve3`
(kept symbolic: its points, `closed` flag, curve type and tension). -/
inductive PathSeg where
  | line (p q : Vec3)
  | catmullRom (pts : List Vec3) (closed : Bool) (curveType : CurveType) (tension : ℚ)
deriving DecidableEq

/-- The point sequence `allPoints` of `AlternateRouteTrack`:
`startPoint`, then the control points in order (none when the field is
absent or empty), then `endPoint`. -/
def routeAllPoints (route : AlternateRoute) : List Vec3 :=
  route.startPoint :: (route.controlPoints.getD [] ++ [route.endPoint])

/-- The segment loop of `AlternateRouteTrack` (lines 1416-1439): a
`"straight"` entry reads `allPoints[currentIndex]` and
`allPoints[currentIndex + 1]`, adds the line between them and advances;
an out-of-range read hits `undefined` and the construction throws
(modelled by `none`); a `"curve"` entry adds one centripetal, tension-0
Catmull-Rom through `allPoints.slice(currentIndex)` and `break`s out of
the loop, discarding the remaining entries. -/
def buildSegPath (allPoints : List Vec3) :
    List SegKind → ℕ → List PathSeg → Option (List PathSeg)
  | [], _, acc => some acc
  | SegKind.straight :: rest, currentIndex, acc =>
      match allPoints.get? currentIndex, allPoints.get? (currentIndex + 1) with
      | some p1, some p2 =>
          buildSegPath allPoints rest (currentIndex + 1) (acc ++ [PathSeg.line p1 p2])
      | _, _ => none
  | SegKind.curve :: _, currentIndex, acc =>
      some (acc ++ [PathSeg.catmullRom (allPoints.drop currentIndex) false CurveType.centripetal 0])

/-- The complete path of `AlternateRouteTrack`: the segment loop when
`route.segments` is present and nonempty, otherwise a single default
Catmull-Rom (`closed = false`, curve type `"centripetal"`, tension `0.5`,
the `THREE.CatmullRomCurve3` defaults) through all points. -/
def routePath (route : AlternateRoute) : Option (List PathSeg) :=
  match route.segments with
  | some (s :: rest) => buildSegPath (routeAllPoints route) (s :: rest) 0 []
  | _ => some [PathSeg.catmullRom (routeAllPoints route) false CurveType.centripetal (1 / 2)]

/-- The straight-line path pieces produced by `k` consecutive `"straight"`
entries starting at point index `i`. -/
def straightLines (ap : List Vec3) (i k : ℕ) : List PathSeg :=
  (List.range k).map (fun j => PathSeg.line (ap.getD (i + j) dfltVec) (ap.getD (i + j + 1) dfltVec))

/-- The number of `"straight"` entries before the first `"curve"` entry
(all entries, when no `"curve"` is present). -/
def straightPrefixLen (segs : List SegKind) : ℕ :=
  (segs.takeWhile (fun s => s = SegKind.straight)).length

def c2routeA : AlternateRoute :=
  { id := "a", name := "A", startPoint := ⟨0, 0, 0⟩, endPoint := ⟨1, 1, 1⟩,
    controlPoints := some [⟨2, 2, 2⟩], segments := none }

def c2routeB : AlternateRoute :=
  { id := "b", name := "B", startPoint := ⟨0, 0, 0⟩, endPoint := ⟨1, 1, 1⟩,
    controlPoints := some [⟨2, 2, 2⟩],
    segments := some [SegKind.straight, SegKind.curve, SegKind.straight] }

def c10route : AlternateRoute :=
  { id := "c", name := "C", startPoint := ⟨0, 0, 0⟩, endPoint := ⟨1, 1, 1⟩,
    controlPoints := some [⟨2, 2, 2⟩],
    segments := some [SegKind.straight, SegKind.straight, SegKind.curve] }

/-- The squared distance compared by the `forEach` loop of
`StartFinishLine.lineGeometry`: the point is elevation-adjusted to
`(x, y*elevationMultiplier - yOffset, z)` before measuring against the
start/finish `position`.  The source compares `Math.sqrt` of this value;
square root is strictly increasing on nonnegative reals, so every
comparison (and hence the selected index) is unchanged by comparing the
squares. -/
def adjDist2 (pos : Vec3) (em yOff : ℚ) (p : TrackPoint) : ℚ :=
  (p.x - pos.x) ^ 2 + (p.y * em - yOff - pos.y) ^ 2 + (p.z - pos.z) ^ 2

/-- The `forEach` accumulation of `StartFinishLine.lineGeometry`: state is
`(minDistance, closestIndex)`, initialised `(∞, 0)` (`∞` = `⊤`); an index
updates the state only when its distance is strictly smaller. -/
def sfLoop (pos : Vec3) (em yOff : ℚ) :
    List TrackPoint → ℕ → (WithTop ℚ × ℕ) → (WithTop ℚ × ℕ)
  | [], _, s => s
  | p :: rest, i, s =>
      let d : WithTop ℚ := ((adjDist2 pos em yOff p : ℚ) : WithTop ℚ)
      sfLoop pos em yOff rest (i + 1) (if d < s.1 then (d, i) else s)

/-- `Math.min(...points.map(p => p.y))`; the empty case (JS `Infinity`) is
unreachable under the nonempty hypotheses of the theorems below. -/
def sfMinY : List TrackPoint → ℚ
  | [] => 0
  | p :: rest => (rest.map (fun q => q.y)).foldl min p.y

/-- `StartFinishLine.lineGeometry`: smoothing is applied only when
`smoothingLevel > 0`. -/
def sfProcessedPoints (trackData : List TrackPoint) (smoothingLevel : ℕ) : List TrackPoint :=
  if 0 < smoothingLevel then smoothPoints trackData smoothingLevel else trackData

/-- The `closestIndex` selected by `StartFinishLine.lineGeometry`, with
`yOffset = minY * elevationMultiplier - groundOffset`. -/
def sfClosestIndex (trackData : List TrackPoint) (smoothingLevel : ℕ)
    (em groundOffset : ℚ) (pos : Vec3) : ℕ :=
  let processed := sfProcessedPoints trackData smoothingLevel
  let yOffset := sfMinY processed * em - groundOffset
  (sfLoop pos em yOffset processed 0 ((⊤ : WithTop ℚ), 0)).2

def c3track : List TrackPoint := [⟨0, 0, 0, none, none⟩, ⟨10, 0, 0, none, none⟩]

def c3pos : Vec3 := ⟨9, 0, 0⟩

/-- The point mapping of `TrackMesh` (lines 1629-1650): after the validity
filter (identity here, since coordinates are rationals by type) and
optional smoothing, each processed point is sent to
`(x, y*elevationMultiplier - yOffset, z)` with
`yOffset = minY*elevationMultiplier - groundOffset`; these are the points
fed to the closed `CatmullRomCurve3`. -/
def trackMeshPoints (trackData : List TrackPoint) (level : ℕ) (em g : ℚ) : List Vec3 :=
  let processedPoints := sfProcessedPoints trackData level
  let yOffset := sfMinY processedPoints * em - g
  processedPoints.map (fun p => ⟨p.x, p.y * em - yOffset, p.z⟩)

def c4track : List TrackPoint := [⟨0, 1, 2, none, none⟩, ⟨3, 4, 5, none, none⟩]

def Vec3.add (a b : Vec3) : Vec3 := ⟨a.x + b.x, a.y + b.y, a.z + b.z⟩

def Vec3.sub (a b : Vec3) : Vec3 := ⟨a.x - b.x, a.y - b.y, a.z - b.z⟩

def Vec3.smul (s : ℚ) (v : Vec3) : Vec3 := ⟨s * v.x, s * v.y, s * v.z⟩

/-- `THREE.Vector3.normalize`: `divideScalar(length || 1)`, so the zero
vector (length `0`) is left unchanged.  The length `‖v‖ = Math.sqrt(...)`
is irrational for most rational vectors, so it is passed in as `nrm`,
constrained by `IsNormOf` in the theorems below. -/
def normalizeWith (v : Vec3) (nrm : ℚ) : Vec3 :=
  if nrm = 0 then v else ⟨v.x / nrm, v.y / nrm, v.z / nrm⟩

/-- `nrm` is the (nonnegative) Euclidean length of `v`. -/
def IsNormOf (v : Vec3) (nrm : ℚ) : Prop :=
  0 ≤ nrm ∧ nrm * nrm = v.x * v.x + v.y * v.y + v.z * v.z

/-- One iteration of the ribbon loops of `TrackMesh.trackRibbonGeometry`
(lines 1709-1721) and `AlternateRouteTrack` (lines 1491-1503): from the
sampled `point` and its successor `nextPoint`,
`direction = normalize(nextPoint - point)`,
`perpendicular = normalize(-direction.z, 0, direction.x)`, and the two
vertices pushed are `point ± perpendicular * (trackWidth * 0.5)` (left
first).  `ν` supplies the `Math.sqrt` lengths used by the two
normalizations. -/
def ribbonPair (point nextPoint : Vec3) (w : ℚ) (ν : Vec3 → ℚ) : Vec3 × Vec3 :=
  let delta := Vec3.sub nextPoint point
  let direction := normalizeWith delta (ν delta)
  let perp0 : Vec3 := ⟨-direction.z, 0, direction.x⟩
  let perpendicular := normalizeWith perp0 (ν perp0)
  let halfWidth := w * (1 / 2)
  (Vec3.add point (Vec3.smul halfWidth perpendicular),
   Vec3.add point (Vec3.smul (-halfWidth) perpendicular))

/-- The per-sample vertex pairs of the ribbon loop: sample `i` is paired
with sample `(i+1) % n` (`AlternateRouteTrack` additionally clamps with
`Math.min(nextIndex, n-1)`, a no-op since `nextIndex < n` already). -/
def ribbonPairs (samples : List Vec3) (w : ℚ) (ν : Vec3 → ℚ) : List (Vec3 × Vec3) :=
  (List.range samples.length).map (fun i =>
    ribbonPair (samples.getD i dfltVec) (samples.getD ((i + 1) % samples.length) dfltVec) w ν)

/-- Written from the SPEC's words: the two ribbon vertices `L, R` of a
sampled point `p` are `p ± (w/2)·u` for a horizontal unit vector `u`;
both keep `p`'s `y`, the cross-section is centred on `p` and its squared
length is `w²`. -/
def RibbonCrossSectionOK (p L R : Vec3) (w : ℚ) (u : Vec3) : Prop :=
  L = Vec3.add p (Vec3.smul (w * (1 / 2)) u) ∧
  R = Vec3.add p (Vec3.smul (-(w * (1 / 2))) u) ∧
  u.y = 0 ∧
  u.x * u.x + u.y * u.y + u.z * u.z = 1 ∧
  L.y = p.y ∧ R.y = p.y ∧
  L.x + R.x = 2 * p.x ∧ L.y + R.y = 2 * p.y ∧ L.z + R.z = 2 * p.z ∧
  (L.x - R.x) ^ 2 + (L.y - R.y) ^ 2 + (L.z - R.z) ^ 2 = w ^ 2

def c5samples : List Vec3 := [⟨0, 0, 0⟩, ⟨3, 0, 4⟩]

def c5nu : Vec3 → ℚ := fun v =>
  if v = ⟨3, 0, 4⟩ then 5 else if v = ⟨-(4 / 5), 0, 3 / 5⟩ then 1 else 0

def c5cexnu : Vec3 → ℚ := fun v => if v = ⟨0, 1, 0⟩ then 1 else 0

lemma getD_map_range {α : Type} (n i : ℕ) (f : ℕ → α) (d : α) (h : i < n) :
    ((List.range n).map f).getD i d = f i := by
  rw [List.getD_eq_getElem _ _ (by simpa using h)]
  simp

lemma smoothPoints_length (points : List TrackPoint) (level : ℕ) :
    (smoothPoints points level).length = points.length := by
  unfold smoothPoints
  split
  · rfl
  · simp

lemma smoothPoints_of_pos (points : List TrackPoint) (level : ℕ)
    (h3 : 3 ≤ points.length) (hl : 1 ≤ level) (i : ℕ) (hi : i < points.length) :
    (smoothPoints points level).getD i dfltPoint =
      (let n := points.length
       let windowSize := min (2 * level + 1) n
       let halfWindow := windowSize / 2
       let idxs := windowIndices n i halfWindow
       let count : ℚ := idxs.length
       { x := (idxs.map (fun k => (points.getD k dfltPoint).x)).sum / count
         y := (idxs.map (fun k => (points.getD k dfltPoint).y)).sum / count
         z := (idxs.map (fun k => (points.getD k dfltPoint).z)).sum / count
         distance := (points.getD i dfltPoint).distance
         sector := (points.getD i dfltPoint).sector }) := by
  unfold smoothPoints
  rw [if_neg (by omega)]
  exact getD_map_range _ _ _ _ hi

/-- Claim C1 (amended): for every all-numeric point list of length `n ≥ 3`
and smoothing level `L ≥ 1` such that the effective window size
`min (2*L+1) n` is odd (equivalently `2*L+1 ≤ n` or `n` odd),
`smoothPoints` returns `n` points whose `i`-th element has each of its
`x`, `y`, `z` coordinates equal to the arithmetic mean of that coordinate
over the circular window of `min (2*L+1) n` consecutive input points
centred at `i`, indices taken modulo `n`. -/
theorem c1_smoothPoints_circular_mean (points : List TrackPoint) (level : ℕ)
    (h3 : 3 ≤ points.length) (hl : 1 ≤ level)
    (hodd : min (2 * level + 1) points.length % 2 = 1) :
    (smoothPoints points level).length = points.length ∧
    ∀ i, i < points.length →
      ((smoothPoints points level).getD i dfltPoint).x
          = specCircularMean points (min (2 * level + 1) points.length) i (fun p => p.x) ∧
      ((smoothPoints points level).getD i dfltPoint).y
          = specCircularMean points (min (2 * level + 1) points.length) i (fun p => p.y) ∧
      ((smoothPoints points level).getD i dfltPoint).z
          = specCircularMean points (min (2 * level + 1) points.length) i (fun p => p.z) := by
  refine ⟨smoothPoints_length points level, fun i hi => ?_⟩
  rw [smoothPoints_of_pos points level h3 hl i hi]
  set w := min (2 * level + 1) points.length with hw
  have h1 : 2 * (w / 2) + 1 = w := by omega
  have h2 : w / 2 = (w - 1) / 2 := by omega
  simp only [specCircularMean, windowIndices]
  rw [h2]
  have h1' : 2 * ((w - 1) / 2) + 1 = w := by omega
  rw [h1']
  simp only [List.map_map, List.length_map, List.length_range]
  exact ⟨rfl, rfl, rfl⟩

/-- Claim C1 as stated fails: with the 4 collinear points of `c1pts`
(x-coordinates 0, 1, 2, 3) and level 2, the window size is `min 5 4 = 4`
but the loop visits 5 circular offsets (one point twice) and divides by
5, giving `8/5` at index 0 where the claimed circular mean is `3/2`. -/
theorem c1_counterexample :
    3 ≤ c1pts.length ∧ 1 ≤ 2 ∧
    ((smoothPoints c1pts 2).getD 0 dfltPoint).x
      ≠ specCircularMean c1pts (min (2 * 2 + 1) c1pts.length) 0 (fun p => p.x) := by
  refine ⟨by decide, by decide, ?_⟩
  have h1 : ((smoothPoints c1pts 2).getD 0 dfltPoint).x = 8 / 5 := by
    simp [smoothPoints, windowIndices, c1pts, dfltPoint, List.range_succ]
    norm_num
  have h2 : specCircularMean c1pts (min (2 * 2 + 1) c1pts.length) 0 (fun p => p.x) = 3 / 2 := by
    simp [specCircularMean, c1pts, dfltPoint, List.range_succ]
    norm_num
  rw [h1, h2]
  norm_num

/-- Concrete instance of C1: three collinear points at level 1
(window 3). -/
theorem c1_witness :
    (smoothPoints c1wpts 1).length = c1wpts.length ∧
    ∀ i, i < c1wpts.length →
      ((smoothPoints c1wpts 1).getD i dfltPoint).x
          = specCircularMean c1wpts (min (2 * 1 + 1) c1wpts.length) i (fun p => p.x) ∧
      ((smoothPoints c1wpts 1).getD i dfltPoint).y
          = specCircularMean c1wpts (min (2 * 1 + 1) c1wpts.length) i (fun p => p.y) ∧
      ((smoothPoints c1wpts 1).getD i dfltPoint).z
          = specCircularMean c1wpts (min (2 * 1 + 1) c1wpts.length) i (fun p => p.z) :=
  c1_smoothPoints_circular_mean c1wpts 1 (by decide) (by decide) (by decide)

/-- Claim C8: for `n ≥ 3` all-numeric points and level `≥ 1`,
`smoothPoints` returns exactly `n` points and the `i`-th output carries
the `distance` and `sector` of the `i`-th input unchanged; with level 0
or fewer than 3 points the input list is returned unchanged. -/
theorem c8_smoothPoints_frame (points : List TrackPoint) (level : ℕ) :
    (3 ≤ points.length → 1 ≤ level →
      (smoothPoints points level).length = points.length ∧
      ∀ i, i < points.length →
        ((smoothPoints points level).getD i dfltPoint).distance = (points.getD i dfltPoint).distance ∧
        ((smoothPoints points level).getD i dfltPoint).sector = (points.getD i dfltPoint).sector) ∧
    ((level = 0 ∨ points.length < 3) → smoothPoints points level = points) := by
  constructor
  · intro h3 hl
    refine ⟨smoothPoints_length points level, fun i hi => ?_⟩
    rw [smoothPoints_of_pos points level h3 hl i hi]
    exact ⟨rfl, rfl⟩
  · intro h
    unfold smoothPoints
    rw [if_pos (by omega)]

/-- Concrete instance of C8: three points with distinct `distance` and
`sector` fields, at levels 1 and 0. -/
theorem c8_witness :
    ((smoothPoints c8wpts 1).length = c8wpts.length ∧
      ∀ i, i < c8wpts.length →
        ((smoothPoints c8wpts 1).getD i dfltPoint).distance = (c8wpts.getD i dfltPoint).distance ∧
        ((smoothPoints c8wpts 1).getD i dfltPoint).sector = (c8wpts.getD i dfltPoint).sector) ∧
    smoothPoints c8wpts 0 = c8wpts :=
  ⟨(c8_smoothPoints_frame c8wpts 1).1 (by decide) (by decide),
   (c8_smoothPoints_frame c8wpts 0).2 (Or.inl rfl)⟩

lemma getD_map_of_lt {α β : Type} (l : List α) (f : α → β) (k : ℕ) (h : k < l.length)
    (d : β) (d' : α) : (l.map f).getD k d = f (l.getD k d') := by
  rw [List.getD_eq_getElem _ _ (by simpa using h), List.getD_eq_getElem _ _ h]
  simp

lemma coord_setCoord_self (v : Vec3) (c : Fin 3) (a : ℚ) : (v.setCoord c a).coord c = a := by
  fin_cases c <;> rfl

lemma coord_setCoord_ne (v : Vec3) (c c' : Fin 3) (a : ℚ) (h : c' ≠ c) :
    (v.setCoord c a).coord c' = v.coord c' := by
  fin_cases c <;> fin_cases c' <;> simp_all [Vec3.setCoord, Vec3.coord]

lemma updateRouteFn_none (routeId : String) (pointIndex : ℕ) (coordinate : Fin 3) (value : ℚ)
    (route : AlternateRoute) (h : route.controlPoints = none) :
    updateRouteFn routeId pointIndex coordinate value route = route := by
  unfold updateRouteFn
  rw [h]

lemma updateRouteFn_ne (routeId : String) (pointIndex : ℕ) (coordinate : Fin 3) (value : ℚ)
    (route : AlternateRoute) (cps : List Vec3) (hcp : route.controlPoints = some cps)
    (h : route.id ≠ routeId) :
    updateRouteFn routeId pointIndex coordinate value route = route := by
  unfold updateRouteFn
  rw [hcp]
  exact if_neg h

lemma updateRouteFn_eq (routeId : String) (pointIndex : ℕ) (coordinate : Fin 3) (value : ℚ)
    (route : AlternateRoute) (cps : List Vec3) (hcp : route.controlPoints = some cps)
    (h : route.id = routeId) :
    updateRouteFn routeId pointIndex coordinate value route
      = { route with
          controlPoints := some (cps.set pointIndex ((cps.getD pointIndex dfltVec).setCoord coordinate value)) } := by
  unfold updateRouteFn
  rw [hcp]
  exact if_pos h

/-- Claim C6: `updateControlPoint` touches only the route whose id
matches and that has control points, and there replaces only the given
coordinate of the point at `pointIndex`: the list length, every other
route, every other control point, the other two coordinates, and the
route's other fields are unchanged. -/
theorem c6_updateControlPoint_frame (routes : List AlternateRoute) (routeId : String)
    (pointIndex : ℕ) (coordinate : Fin 3) (value : ℚ) :
    (updateControlPoint routes routeId pointIndex coordinate value).length = routes.length ∧
    ∀ k, k < routes.length →
      (((routes.getD k dfltRoute).id ≠ routeId ∨ (routes.getD k dfltRoute).controlPoints = none) →
        (updateControlPoint routes routeId pointIndex coordinate value).getD k dfltRoute
          = routes.getD k dfltRoute) ∧
      (∀ cps, (routes.getD k dfltRoute).controlPoints = some cps →
        (routes.getD k dfltRoute).id = routeId →
        ∃ cps',
          (updateControlPoint routes routeId pointIndex coordinate value).getD k dfltRoute
            = { routes.getD k dfltRoute with controlPoints := some cps' } ∧
          cps'.length = cps.length ∧
          (∀ j, j < cps.length → j ≠ pointIndex → cps'.getD j dfltVec = cps.getD j dfltVec) ∧
          (pointIndex < cps.length →
            (cps'.getD pointIndex dfltVec).coord coordinate = value ∧
            ∀ c : Fin 3, c ≠ coordinate →
              (cps'.getD pointIndex dfltVec).coord c = (cps.getD pointIndex dfltVec).coord c)) := by
  refine ⟨by simp [updateControlPoint], fun k hk => ?_⟩
  have hmap := getD_map_of_lt routes (updateRouteFn routeId pointIndex coordinate value)
    k hk dfltRoute dfltRoute
  constructor
  · intro hcase
    rw [updateControlPoint, hmap]
    rcases hcase with h | h
    · cases hcp : (routes.getD k dfltRoute).controlPoints with
      | none => exact updateRouteFn_none _ _ _ _ _ hcp
      | some cps => exact updateRouteFn_ne _ _ _ _ _ cps hcp h
    · exact updateRouteFn_none _ _ _ _ _ h
  · intro cps hcp hid
    rw [updateControlPoint, hmap,
      updateRouteFn_eq routeId pointIndex coordinate value _ cps hcp hid]
    refine ⟨cps.set pointIndex ((cps.getD pointIndex dfltVec).setCoord coordinate value),
      rfl, by simp, ?_, ?_⟩
    · intro j hj hne
      rw [List.getD_eq_getElem _ _ (by simpa using hj), List.getD_eq_getElem _ _ hj]
      simp only [List.getElem_set]
      rw [if_neg (fun h => hne h.symm)]
    · intro hpi
      have hget : (cps.set pointIndex ((cps.getD pointIndex dfltVec).setCoord coordinate value)).getD
          pointIndex dfltVec = (cps.getD pointIndex dfltVec).setCoord coordinate value := by
        rw [List.getD_eq_getElem _ _ (by simpa using hpi)]
        simp [List.getElem_set]
      rw [hget]
      exact ⟨coord_setCoord_self _ _ _, fun c hc => coord_setCoord_ne _ _ _ _ hc⟩

lemma filterWithIndex_ne_eq_eraseIdx {α : Type} (l : List α) (idx : ℕ) : ∀ k,
    filterWithIndex (fun i _ => i ≠ idx) l k = if idx < k then l else l.eraseIdx (idx - k) := by
  induction l with
  | nil =>
    intro k
    unfold filterWithIndex
    split <;> rfl
  | cons a l ih =>
    intro k
    unfold filterWithIndex
    by_cases h : k = idx
    · subst h
      have hc : (decide (k ≠ k)) = false := by simp
      simp only [hc, Bool.false_eq_true, if_false]
      rw [ih (k + 1), if_pos (Nat.lt_succ_self k), if_neg (lt_irrefl k), Nat.sub_self]
      rfl
    · have hc : (decide (k ≠ idx)) = true := by simp [h]
      simp only [hc, if_true]
      rw [ih (k + 1)]
      rcases Nat.lt_or_ge idx k with hlt | hge
      · rw [if_pos (show idx < k + 1 by omega), if_pos hlt]
      · rw [if_neg (show ¬ idx < k + 1 by omega), if_neg (show ¬ idx < k by omega)]
        have h1 : idx - k = (idx - (k + 1)) + 1 := by omega
        rw [h1]
        rfl

lemma deleteRouteFn_none (routeId : String) (pointIndex : ℕ)
    (route : AlternateRoute) (h : route.controlPoints = none) :
    deleteRouteFn routeId pointIndex route = route := by
  unfold deleteRouteFn
  rw [h]

lemma deleteRouteFn_some (routeId : String) (pointIndex : ℕ)
    (route : AlternateRoute) (cps : List Vec3) (hcp : route.controlPoints = some cps) :
    deleteRouteFn routeId pointIndex route
      = if route.id = routeId then
          ({ route with
             controlPoints := if 0 < (filterWithIndex (fun i _ => i ≠ pointIndex) cps 0).length
               then some (filterWithIndex (fun i _ => i ≠ pointIndex) cps 0) else none } : AlternateRoute)
        else route := by
  unfold deleteRouteFn
  rw [hcp]

lemma deleteRouteFn_ne (routeId : String) (pointIndex : ℕ)
    (route : AlternateRoute) (cps : List Vec3) (hcp : route.controlPoints = some cps)
    (h : route.id ≠ routeId) :
    deleteRouteFn routeId pointIndex route = route := by
  rw [deleteRouteFn_some routeId pointIndex route cps hcp]
  exact if_neg h

lemma deleteRouteFn_eq (routeId : String) (pointIndex : ℕ)
    (route : AlternateRoute) (cps : List Vec3) (hcp : route.controlPoints = some cps)
    (h : route.id = routeId) :
    deleteRouteFn routeId pointIndex route
      = { route with
          controlPoints := if (cps.take pointIndex ++ cps.drop (pointIndex + 1)).length = 0 then none
            else some (cps.take pointIndex ++ cps.drop (pointIndex + 1)) } := by
  rw [deleteRouteFn_some routeId pointIndex route cps hcp, if_pos h]
  have hfil : filterWithIndex (fun i _ => i ≠ pointIndex) cps 0
      = cps.take pointIndex ++ cps.drop (pointIndex + 1) := by
    rw [filterWithIndex_ne_eq_eraseIdx cps pointIndex 0, if_neg (by omega), Nat.sub_zero,
      List.eraseIdx_eq_take_drop_succ]
  rw [hfil]
  by_cases hnil : (cps.take pointIndex ++ cps.drop (pointIndex + 1)).length = 0
  · rw [if_neg (by omega), if_pos hnil]
  · rw [if_pos (by omega), if_neg hnil]

/-- Claim C7: `deleteControlPoint` removes exactly the control point at
`pointIndex` from the matching route, preserving the order of the rest
(`take pointIndex ++ drop (pointIndex+1)`); when the remainder is empty
the `controlPoints` field becomes `undefined` (`none`); routes with a
different id (or no control points) are unchanged. -/
theorem c7_deleteControlPoint (routes : List AlternateRoute) (routeId : String) (pointIndex : ℕ) :
    (deleteControlPoint routes routeId pointIndex).length = routes.length ∧
    ∀ k, k < routes.length →
      (((routes.getD k dfltRoute).id ≠ routeId ∨ (routes.getD k dfltRoute).controlPoints = none) →
        (deleteControlPoint routes routeId pointIndex).getD k dfltRoute = routes.getD k dfltRoute) ∧
      (∀ cps, (routes.getD k dfltRoute).controlPoints = some cps →
        (routes.getD k dfltRoute).id = routeId →
        (deleteControlPoint routes routeId pointIndex).getD k dfltRoute
          = { routes.getD k dfltRoute with
              controlPoints := if (cps.take pointIndex ++ cps.drop (pointIndex + 1)).length = 0 then none
                else some (cps.take pointIndex ++ cps.drop (pointIndex + 1)) }) := by
  refine ⟨by simp [deleteControlPoint], fun k hk => ?_⟩
  have hmap := getD_map_of_lt routes (deleteRouteFn routeId pointIndex) k hk dfltRoute dfltRoute
  constructor
  · intro hcase
    rw [deleteControlPoint, hmap]
    rcases hcase with h | h
    · cases hcp : (routes.getD k dfltRoute).controlPoints with
      | none => exact deleteRouteFn_none _ _ _ hcp
      | some cps => exact deleteRouteFn_ne _ _ _ cps hcp h
    · exact deleteRouteFn_none _ _ _ h
  · intro cps hcp hid
    rw [deleteControlPoint, hmap, deleteRouteFn_eq routeId pointIndex _ cps hcp hid]

lemma addRouteFn_ne (routeId : String) (px py pz : Option ℚ)
    (route : AlternateRoute) (h : route.id ≠ routeId) :
    addRouteFn routeId px py pz route = route := by
  unfold addRouteFn
  exact if_neg h

lemma addRouteFn_eq (routeId : String) (px py pz : Option ℚ)
    (route : AlternateRoute) (h : route.id = routeId) :
    addRouteFn routeId px py pz route
      = { route with
          controlPoints := some (route.controlPoints.getD []
            ++ [⟨parseFloatOr0 px, parseFloatOr0 py, parseFloatOr0 pz⟩]) } := by
  unfold addRouteFn
  exact if_pos h

/-- Claim C9: `addControlPoint` appends exactly one control point to the
matching route (starting from `[]` when the field is absent) and changes
nothing else; each coordinate is the parsed input value with `0`
substituted when the parse is `NaN` (and `0` kept as `0`), the `|| 0`
semantics of `parseFloatOr0`. -/
theorem c9_addControlPoint (routes : List AlternateRoute) (routeId : String)
    (px py pz : Option ℚ) :
    parseFloatOr0 none = 0 ∧ (∀ q : ℚ, parseFloatOr0 (some q) = q) ∧
    (addControlPoint routes routeId px py pz).length = routes.length ∧
    ∀ k, k < routes.length →
      ((routes.getD k dfltRoute).id ≠ routeId →
        (addControlPoint routes routeId px py pz).getD k dfltRoute = routes.getD k dfltRoute) ∧
      ((routes.getD k dfltRoute).id = routeId →
        (addControlPoint routes routeId px py pz).getD k dfltRoute
          = { routes.getD k dfltRoute with
              controlPoints := some ((routes.getD k dfltRoute).controlPoints.getD []
                ++ [⟨parseFloatOr0 px, parseFloatOr0 py, parseFloatOr0 pz⟩]) }) := by
  refine ⟨rfl, fun q => rfl, by simp [addControlPoint], fun k hk => ?_⟩
  have hmap := getD_map_of_lt routes (addRouteFn routeId px py pz) k hk dfltRoute dfltRoute
  constructor
  · intro h
    rw [addControlPoint, hmap]
    exact addRouteFn_ne _ _ _ _ _ h
  · intro h
    rw [addControlPoint, hmap]
    exact addRouteFn_eq _ _ _ _ _ h

/-- Concrete instance of C6: route "a" has its first control point's
y-coordinate set to 99; route "b" is untouched. -/
theorem c6_witness :
    (updateControlPoint c6routes "a" 0 1 99).length = c6routes.length ∧
    (updateControlPoint c6routes "a" 0 1 99).getD 1 dfltRoute = c6routes.getD 1 dfltRoute ∧
    ∃ cps',
      (updateControlPoint c6routes "a" 0 1 99).getD 0 dfltRoute
        = { c6routes.getD 0 dfltRoute with controlPoints := some cps' } ∧
      cps'.length = ([⟨1, 2, 3⟩, ⟨4, 5, 6⟩] : List Vec3).length ∧
      (∀ j, j < ([⟨1, 2, 3⟩, ⟨4, 5, 6⟩] : List Vec3).length → j ≠ 0 →
        cps'.getD j dfltVec = ([⟨1, 2, 3⟩, ⟨4, 5, 6⟩] : List Vec3).getD j dfltVec) ∧
      (0 < ([⟨1, 2, 3⟩, ⟨4, 5, 6⟩] : List Vec3).length →
        (cps'.getD 0 dfltVec).coord 1 = 99 ∧
        ∀ c : Fin 3, c ≠ 1 →
          (cps'.getD 0 dfltVec).coord c = (([⟨1, 2, 3⟩, ⟨4, 5, 6⟩] : List Vec3).getD 0 dfltVec).coord c) :=
  ⟨(c6_updateControlPoint_frame c6routes "a" 0 1 99).1,
   ((c6_updateControlPoint_frame c6routes "a" 0 1 99).2 1 (by decide)).1 (Or.inl (by decide)),
   ((c6_updateControlPoint_frame c6routes "a" 0 1 99).2 0 (by decide)).2
     [⟨1, 2, 3⟩, ⟨4, 5, 6⟩] rfl rfl⟩

/-- Concrete instance of C7: deleting the only control point of route
"a" sets its `controlPoints` to `none`; route "b" is untouched. -/
theorem c7_witness :
    (deleteControlPoint c7routes "a" 0).length = c7routes.length ∧
    (deleteControlPoint c7routes "a" 0).getD 1 dfltRoute = c7routes.getD 1 dfltRoute ∧
    (deleteControlPoint c7routes "a" 0).getD 0 dfltRoute
      = { c7routes.getD 0 dfltRoute with
          controlPoints :=
            if (([⟨1, 2, 3⟩] : List Vec3).take 0 ++ ([⟨1, 2, 3⟩] : List Vec3).drop 1).length = 0 then none
            else some (([⟨1, 2, 3⟩] : List Vec3).take 0 ++ ([⟨1, 2, 3⟩] : List Vec3).drop 1) } :=
  ⟨(c7_deleteControlPoint c7routes "a" 0).1,
   ((c7_deleteControlPoint c7routes "a" 0).2 1 (by decide)).1 (Or.inl (by decide)),
   ((c7_deleteControlPoint c7routes "a" 0).2 0 (by decide)).2 [⟨1, 2, 3⟩] rfl rfl⟩

/-- Concrete instance of C9: a NaN x-input becomes 0, numeric inputs pass
through; route "a" (no prior control points) gains exactly one point and
route "b" is untouched. -/
theorem c9_witness :
    parseFloatOr0 none = 0 ∧ (∀ q : ℚ, parseFloatOr0 (some q) = q) ∧
    (addControlPoint c9routes "a" none (some 5) (some 0)).length = c9routes.length ∧
    (addControlPoint c9routes "a" none (some 5) (some 0)).getD 1 dfltRoute = c9routes.getD 1 dfltRoute ∧
    (addControlPoint c9routes "a" none (some 5) (some 0)).getD 0 dfltRoute
      = { c9routes.getD 0 dfltRoute with
          controlPoints := some ((c9routes.getD 0 dfltRoute).controlPoints.getD []
            ++ [⟨parseFloatOr0 none, parseFloatOr0 (some 5), parseFloatOr0 (some 0)⟩]) } :=
  ⟨(c9_addControlPoint c9routes "a" none (some 5) (some 0)).1,
   (c9_addControlPoint c9routes "a" none (some 5) (some 0)).2.1,
   (c9_addControlPoint c9routes "a" none (some 5) (some 0)).2.2.1,
   ((c9_addControlPoint c9routes "a" none (some 5) (some 0)).2.2.2 1 (by decide)).1 (by decide),
   ((c9_addControlPoint c9routes "a" none (some 5) (some 0)).2.2.2 0 (by decide)).2 rfl⟩

lemma get?_eq_some_getD {α : Type} (l : List α) (i : ℕ) (d : α) (h : i < l.length) :
    l.get? i = some (l.getD i d) := by
  rw [List.getD_eq_getElem _ _ h, List.get?_eq_getElem?, List.getElem?_eq_getElem h]

lemma straightLines_zero (ap : List Vec3) (i : ℕ) : straightLines ap i 0 = [] := rfl

lemma straightLines_succ (ap : List Vec3) (i k : ℕ) :
    straightLines ap i (k + 1)
      = PathSeg.line (ap.getD i dfltVec) (ap.getD (i + 1) dfltVec) :: straightLines ap (i + 1) k := by
  unfold straightLines
  rw [List.range_succ_eq_map, List.map_cons, List.map_map]
  congr 1
  apply List.map_congr_left
  intro j _
  have h1 : i + (j + 1) = i + 1 + j := by omega
  simp only [Function.comp_apply, Nat.succ_eq_add_one, h1]

lemma buildSegPath_straight_step (ap : List Vec3) (rest : List SegKind) (i : ℕ)
    (acc : List PathSeg) (h : i + 1 < ap.length) :
    buildSegPath ap (SegKind.straight :: rest) i acc
      = buildSegPath ap rest (i + 1) (acc ++ [PathSeg.line (ap.getD i dfltVec) (ap.getD (i + 1) dfltVec)]) := by
  conv_lhs => rw [buildSegPath]
  rw [get?_eq_some_getD ap i dfltVec (by omega), get?_eq_some_getD ap (i + 1) dfltVec h]

lemma buildSegPath_straights (ap : List Vec3) (k : ℕ) : ∀ i acc rest,
    i + k < ap.length →
    buildSegPath ap (List.replicate k SegKind.straight ++ rest) i acc
      = buildSegPath ap rest (i + k) (acc ++ straightLines ap i k) := by
  induction k with
  | zero =>
    intro i acc rest _
    simp [straightLines_zero]
  | succ k ih =>
    intro i acc rest h
    rw [List.replicate_succ, List.cons_append,
      buildSegPath_straight_step ap _ i acc (by omega),
      ih (i + 1) _ rest (by omega)]
    rw [straightLines_succ]
    have h1 : i + 1 + k = i + (k + 1) := by omega
    rw [h1]
    congr 1
    simp

lemma buildSegPath_curve (ap : List Vec3) (rest : List SegKind) (i : ℕ) (acc : List PathSeg) :
    buildSegPath ap (SegKind.curve :: rest) i acc
      = some (acc ++ [PathSeg.catmullRom (ap.drop i) false CurveType.centripetal 0]) := rfl

lemma routePath_nonempty (route : AlternateRoute) (segs : List SegKind)
    (h : route.segments = some segs) (hne : segs ≠ []) :
    routePath route = buildSegPath (routeAllPoints route) segs 0 [] := by
  unfold routePath
  rw [h]
  cases segs with
  | nil => exact absurd rfl hne
  | cons s tl => rfl

lemma routeAllPoints_length (route : AlternateRoute) :
    (routeAllPoints route).length = (route.controlPoints.getD []).length + 2 := by
  simp [routeAllPoints]

/-- Claim C2: over the point sequence `startPoint :: controlPoints ++
[endPoint]`, a route without a (nonempty) segments list gets one default
Catmull-Rom through all points; `k` leading `"straight"` entries produce
the straight lines joining consecutive points `0..k`, and the first
`"curve"` entry adds a single centripetal tension-0 Catmull-Rom through
all remaining points and ends the construction, so the entries after it
(quantified by `rest`) contribute nothing; an all-straight list produces
exactly its straight lines. -/
theorem c2_alternateRoutePath (route : AlternateRoute) :
    ((route.segments = none ∨ route.segments = some []) →
      routePath route
        = some [PathSeg.catmullRom (routeAllPoints route) false CurveType.centripetal (1 / 2)]) ∧
    (∀ k rest, route.segments = some (List.replicate k SegKind.straight ++ SegKind.curve :: rest) →
      k < (routeAllPoints route).length →
      routePath route = some (straightLines (routeAllPoints route) 0 k
        ++ [PathSeg.catmullRom ((routeAllPoints route).drop k) false CurveType.centripetal 0])) ∧
    (∀ k, route.segments = some (List.replicate k SegKind.straight) → 1 ≤ k →
      k < (routeAllPoints route).length →
      routePath route = some (straightLines (routeAllPoints route) 0 k)) := by
  refine ⟨?_, ?_, ?_⟩
  · intro h
    rcases h with h | h <;> (unfold routePath; rw [h])
  · intro k rest hseg hk
    have hne : List.replicate k SegKind.straight ++ SegKind.curve :: rest ≠ [] := by simp
    rw [routePath_nonempty route _ hseg hne,
      buildSegPath_straights (routeAllPoints route) k 0 [] (SegKind.curve :: rest) (by omega),
      buildSegPath_curve]
    simp
  · intro k hseg hk1 hk
    have hne : List.replicate k SegKind.straight ≠ [] := by
      intro hemp
      have h2 := congrArg List.length hemp
      simp at h2
      omega
    rw [routePath_nonempty route _ hseg hne]
    have h3 := buildSegPath_straights (routeAllPoints route) k 0 [] [] (by omega)
    rw [List.append_nil] at h3
    rw [h3]
    simp [buildSegPath]

/-- Concrete instance of C2: a route with no segments list, and a route
with segments `[straight, curve, straight]` whose trailing entry is
discarded. -/
theorem c2_witness :
    routePath c2routeA
      = some [PathSeg.catmullRom (routeAllPoints c2routeA) false CurveType.centripetal (1 / 2)] ∧
    routePath c2routeB = some (straightLines (routeAllPoints c2routeB) 0 1
      ++ [PathSeg.catmullRom ((routeAllPoints c2routeB).drop 1) false CurveType.centripetal 0]) :=
  ⟨(c2_alternateRoutePath c2routeA).1 (Or.inl rfl),
   (c2_alternateRoutePath c2routeB).2.1 1 [SegKind.straight] rfl (by decide)⟩

lemma buildSegPath_isSome (ap : List Vec3) : ∀ segs i acc,
    i + straightPrefixLen segs < ap.length →
    (buildSegPath ap segs i acc).isSome = true := by
  intro segs
  induction segs with
  | nil => intro i acc _; rfl
  | cons s rest ih =>
    intro i acc h
    cases s with
    | straight =>
      have hlen : straightPrefixLen (SegKind.straight :: rest) = straightPrefixLen rest + 1 := by
        simp [straightPrefixLen, List.takeWhile_cons]
      rw [buildSegPath_straight_step ap rest i acc (by omega)]
      exact ih (i + 1) _ (by omega)
    | curve =>
      rw [buildSegPath_curve]
      rfl

/-- Claim C10: when the number of `"straight"` entries before the first
`"curve"` (all entries, absent a curve) is at most `controlPoints.length
+ 1`, every `allPoints[currentIndex]`/`[currentIndex+1]` access of the
segment loop is in range, so the construction is total: the
undefined-point branch (modelled by `none`) is unreachable. -/
theorem c10_segment_construction_total (route : AlternateRoute) (segs : List SegKind)
    (hseg : route.segments = some segs)
    (hpre : straightPrefixLen segs ≤ (route.controlPoints.getD []).length + 1) :
    (routePath route).isSome = true := by
  cases segs with
  | nil =>
    unfold routePath
    rw [hseg]
    rfl
  | cons s tl =>
    rw [routePath_nonempty route _ hseg (by simp)]
    apply buildSegPath_isSome
    rw [routeAllPoints_length]
    omega

/-- Concrete instance of C10: one control point and segments
`[straight, straight, curve]` (two straights ≤ 1 + 1). -/
theorem c10_witness : (routePath c10route).isSome = true :=
  c10_segment_construction_total c10route
    [SegKind.straight, SegKind.straight, SegKind.curve] rfl (by decide)

lemma sfLoop_spec (pos : Vec3) (em yOff : ℚ) : ∀ (l : List TrackPoint) (i : ℕ)
    (m : WithTop ℚ) (ci : ℕ),
    (∀ j, j < l.length →
      ¬ (((adjDist2 pos em yOff (l.getD j dfltPoint) : ℚ) : WithTop ℚ)
          < (sfLoop pos em yOff l i (m, ci)).1)) ∧
    (sfLoop pos em yOff l i (m, ci) = (m, ci) ∨
      ∃ j, j < l.length ∧
        (sfLoop pos em yOff l i (m, ci)).2 = i + j ∧
        (sfLoop pos em yOff l i (m, ci)).1
          = ((adjDist2 pos em yOff (l.getD j dfltPoint) : ℚ) : WithTop ℚ) ∧
        (sfLoop pos em yOff l i (m, ci)).1 < m ∧
        ∀ j', j' < j → (sfLoop pos em yOff l i (m, ci)).1
            < ((adjDist2 pos em yOff (l.getD j' dfltPoint) : ℚ) : WithTop ℚ)) := by
  intro l
  induction l with
  | nil =>
    intro i m ci
    constructor
    · intro j hj
      exact absurd hj (by simp)
    · exact Or.inl rfl
  | cons p rest ih =>
    intro i m ci
    have hstep : sfLoop pos em yOff (p :: rest) i (m, ci)
        = sfLoop pos em yOff rest (i + 1)
            (if ((adjDist2 pos em yOff p : ℚ) : WithTop ℚ) < m
             then (((adjDist2 pos em yOff p : ℚ) : WithTop ℚ), i) else (m, ci)) := rfl
    by_cases hlt : ((adjDist2 pos em yOff p : ℚ) : WithTop ℚ) < m
    · rw [hstep, if_pos hlt]
      obtain ⟨ih1, ih2⟩ := ih (i + 1) ((adjDist2 pos em yOff p : ℚ) : WithTop ℚ) i
      have hle : (sfLoop pos em yOff rest (i + 1)
          (((adjDist2 pos em yOff p : ℚ) : WithTop ℚ), i)).1
          ≤ ((adjDist2 pos em yOff p : ℚ) : WithTop ℚ) := by
        rcases ih2 with heq | ⟨j, hj, h2, h3, h4, h5⟩
        · rw [heq]
        · exact le_of_lt h4
      constructor
      · intro j hj
        cases j with
        | zero => simpa using not_lt.mpr hle
        | succ j => exact ih1 j (by simpa using hj)
      · rcases ih2 with heq | ⟨j, hj, h2, h3, h4, h5⟩
        · right
          refine ⟨0, by simp, ?_, ?_, ?_, ?_⟩
          · rw [heq]; omega
          · rw [heq]; rfl
          · rw [heq]; exact hlt
          · intro j' hj'; omega
        · right
          refine ⟨j + 1, by simpa using hj, by omega, by simpa using h3, lt_trans h4 hlt, ?_⟩
          intro j' hj'
          cases j' with
          | zero => simpa using h4
          | succ j' => exact h5 j' (by omega)
    · rw [hstep, if_neg hlt]
      obtain ⟨ih1, ih2⟩ := ih (i + 1) m ci
      have hmle : m ≤ ((adjDist2 pos em yOff p : ℚ) : WithTop ℚ) := not_lt.mp hlt
      have hle : (sfLoop pos em yOff rest (i + 1) (m, ci)).1 ≤ m := by
        rcases ih2 with heq | ⟨j, hj, h2, h3, h4, h5⟩
        · rw [heq]
        · exact le_of_lt h4
      constructor
      · intro j hj
        cases j with
        | zero => simpa using not_lt.mpr (le_trans hle hmle)
        | succ j => exact ih1 j (by simpa using hj)
      · rcases ih2 with heq | ⟨j, hj, h2, h3, h4, h5⟩
        · left; exact heq
        · right
          refine ⟨j + 1, by simpa using hj, by omega, by simpa using h3, h4, ?_⟩
          intro j' hj'
          cases j' with
          | zero => simpa using lt_of_lt_of_le h4 hmle
          | succ j' => exact h5 j' (by omega)

/-- Claim C3: for every nonempty processed point list, the index selected
by `StartFinishLine` is a nearest point in the squared (hence Euclidean)
elevation-adjusted distance to the start/finish position, and every index
below the selected one is strictly farther, so ties select the smallest
index. -/
theorem c3_startFinish_nearest (trackData : List TrackPoint) (level : ℕ) (em g : ℚ) (pos : Vec3)
    (hne : sfProcessedPoints trackData level ≠ []) :
    sfClosestIndex trackData level em g pos < (sfProcessedPoints trackData level).length ∧
    (∀ j, j < (sfProcessedPoints trackData level).length →
      adjDist2 pos em (sfMinY (sfProcessedPoints trackData level) * em - g)
          ((sfProcessedPoints trackData level).getD (sfClosestIndex trackData level em g pos) dfltPoint)
        ≤ adjDist2 pos em (sfMinY (sfProcessedPoints trackData level) * em - g)
          ((sfProcessedPoints trackData level).getD j dfltPoint)) ∧
    (∀ j, j < sfClosestIndex trackData level em g pos →
      adjDist2 pos em (sfMinY (sfProcessedPoints trackData level) * em - g)
          ((sfProcessedPoints trackData level).getD (sfClosestIndex trackData level em g pos) dfltPoint)
        < adjDist2 pos em (sfMinY (sfProcessedPoints trackData level) * em - g)
          ((sfProcessedPoints trackData level).getD j dfltPoint)) := by
  obtain ⟨h1, h2⟩ := sfLoop_spec pos em (sfMinY (sfProcessedPoints trackData level) * em - g)
    (sfProcessedPoints trackData level) 0 ⊤ 0
  have hsel : sfClosestIndex trackData level em g pos
      = (sfLoop pos em (sfMinY (sfProcessedPoints trackData level) * em - g)
          (sfProcessedPoints trackData level) 0 (⊤, 0)).2 := rfl
  rcases h2 with heq | ⟨j, hj, hidx, hval, _, hstrict⟩
  · exfalso
    have h0 : 0 < (sfProcessedPoints trackData level).length := List.length_pos.mpr hne
    have hc := h1 0 h0
    rw [heq] at hc
    exact hc (WithTop.coe_lt_top _)
  · have hj0 : (0 : ℕ) + j = j := by omega
    rw [hj0] at hidx
    refine ⟨by rw [hsel, hidx]; exact hj, ?_, ?_⟩
    · intro j2 hj2
      have hc := h1 j2 hj2
      rw [hval] at hc
      have hle := not_lt.mp hc
      rw [hsel, hidx]
      exact_mod_cast hle
    · intro j2 hj2
      rw [hsel, hidx] at hj2
      have hc := hstrict j2 hj2
      rw [hval] at hc
      rw [hsel, hidx]
      exact_mod_cast hc

/-- Concrete instance of C3: two points with the position nearest the
second. -/
theorem c3_witness :
    sfClosestIndex c3track 0 1 0 c3pos < (sfProcessedPoints c3track 0).length ∧
    (∀ j, j < (sfProcessedPoints c3track 0).length →
      adjDist2 c3pos 1 (sfMinY (sfProcessedPoints c3track 0) * 1 - 0)
          ((sfProcessedPoints c3track 0).getD (sfClosestIndex c3track 0 1 0 c3pos) dfltPoint)
        ≤ adjDist2 c3pos 1 (sfMinY (sfProcessedPoints c3track 0) * 1 - 0)
          ((sfProcessedPoints c3track 0).getD j dfltPoint)) ∧
    (∀ j, j < sfClosestIndex c3track 0 1 0 c3pos →
      adjDist2 c3pos 1 (sfMinY (sfProcessedPoints c3track 0) * 1 - 0)
          ((sfProcessedPoints c3track 0).getD (sfClosestIndex c3track 0 1 0 c3pos) dfltPoint)
        < adjDist2 c3pos 1 (sfMinY (sfProcessedPoints c3track 0) * 1 - 0)
          ((sfProcessedPoints c3track 0).getD j dfltPoint)) :=
  c3_startFinish_nearest c3track 0 1 0 c3pos (by simp [sfProcessedPoints, c3track])

lemma foldl_min_le (l : List ℚ) : ∀ a : ℚ, l.foldl min a ≤ a ∧ ∀ b ∈ l, l.foldl min a ≤ b := by
  induction l with
  | nil =>
    intro a
    exact ⟨le_refl a, by intro b hb; cases hb⟩
  | cons c l ih =>
    intro a
    obtain ⟨h1, h2⟩ := ih (min a c)
    refine ⟨le_trans h1 (min_le_left a c), ?_⟩
    intro b hb
    rcases List.mem_cons.mp hb with rfl | hb
    · exact le_trans h1 (min_le_right a b)
    · exact h2 b hb

lemma foldl_min_mem (l : List ℚ) : ∀ a : ℚ, l.foldl min a = a ∨ l.foldl min a ∈ l := by
  induction l with
  | nil => intro a; exact Or.inl rfl
  | cons c l ih =>
    intro a
    rcases ih (min a c) with h | h
    · rcases min_cases a c with ⟨hmin, _⟩ | ⟨hmin, _⟩
      · left; rw [List.foldl_cons, h, hmin]
      · right; rw [List.foldl_cons, h, hmin]; exact List.mem_cons_self c l
    · right; exact List.mem_cons_of_mem c h

lemma sfMinY_le (l : List TrackPoint) (p : TrackPoint) (hp : p ∈ l) : sfMinY l ≤ p.y := by
  cases l with
  | nil => cases hp
  | cons q rest =>
    rcases List.mem_cons.mp hp with rfl | hp
    · exact (foldl_min_le (rest.map (fun r => r.y)) p.y).1
    · exact (foldl_min_le (rest.map (fun r => r.y)) q.y).2 p.y (List.mem_map_of_mem _ hp)

lemma sfMinY_attained (l : List TrackPoint) (h : l ≠ []) : ∃ p ∈ l, p.y = sfMinY l := by
  cases l with
  | nil => exact absurd rfl h
  | cons q rest =>
    rcases foldl_min_mem (rest.map (fun r => r.y)) q.y with hm | hm
    · exact ⟨q, List.mem_cons_self q rest, hm.symm⟩
    · obtain ⟨p, hp, hpy⟩ := List.mem_map.mp hm
      exact ⟨p, List.mem_cons_of_mem q hp, hpy⟩

lemma sfProcessedPoints_length (trackData : List TrackPoint) (level : ℕ) :
    (sfProcessedPoints trackData level).length = trackData.length := by
  unfold sfProcessedPoints
  split
  · exact smoothPoints_length trackData level
  · rfl

/-- Claim C4: with at least 2 valid points and a nonnegative elevation
multiplier `em` (the UI slider ranges over 1..50), `TrackMesh` maps each
processed point `(x, y, z)` to `(x, y*em - (minY*em - g), z)`; `x` and
`z` pass through unchanged, every transformed `y` is at least the ground
offset `g`, and `g` is attained, i.e. the minimum transformed `y` equals
exactly `g`. -/
theorem c4_trackMesh_elevation (trackData : List TrackPoint) (level : ℕ) (em g : ℚ)
    (h2 : 2 ≤ trackData.length) (hem : 0 ≤ em) :
    (trackMeshPoints trackData level em g).length = (sfProcessedPoints trackData level).length ∧
    (∀ i, i < (sfProcessedPoints trackData level).length →
      (trackMeshPoints trackData level em g).getD i dfltVec
        = ⟨((sfProcessedPoints trackData level).getD i dfltPoint).x,
           ((sfProcessedPoints trackData level).getD i dfltPoint).y * em
             - (sfMinY (sfProcessedPoints trackData level) * em - g),
           ((sfProcessedPoints trackData level).getD i dfltPoint).z⟩) ∧
    (∀ i, i < (sfProcessedPoints trackData level).length →
      g ≤ ((trackMeshPoints trackData level em g).getD i dfltVec).y) ∧
    (∃ i, i < (sfProcessedPoints trackData level).length ∧
      ((trackMeshPoints trackData level em g).getD i dfltVec).y = g) := by
  have hlen := sfProcessedPoints_length trackData level
  have hne : sfProcessedPoints trackData level ≠ [] := by
    intro h
    rw [h] at hlen
    simp at hlen
    omega
  have hmapped : ∀ i, i < (sfProcessedPoints trackData level).length →
      (trackMeshPoints trackData level em g).getD i dfltVec
        = ⟨((sfProcessedPoints trackData level).getD i dfltPoint).x,
           ((sfProcessedPoints trackData level).getD i dfltPoint).y * em
             - (sfMinY (sfProcessedPoints trackData level) * em - g),
           ((sfProcessedPoints trackData level).getD i dfltPoint).z⟩ := by
    intro i hi
    exact getD_map_of_lt (sfProcessedPoints trackData level) _ i hi dfltVec dfltPoint
  refine ⟨by simp [trackMeshPoints], hmapped, ?_, ?_⟩
  · intro i hi
    rw [hmapped i hi]
    have hmem : (sfProcessedPoints trackData level).getD i dfltPoint
        ∈ sfProcessedPoints trackData level := by
      rw [List.getD_eq_getElem _ _ hi]
      exact List.getElem_mem hi
    have hle := sfMinY_le (sfProcessedPoints trackData level) _ hmem
    have hnn := mul_nonneg (sub_nonneg.mpr hle) hem
    dsimp only
    nlinarith [hnn]
  · obtain ⟨p, hp, hpy⟩ := sfMinY_attained (sfProcessedPoints trackData level) hne
    obtain ⟨i, hi, hpi⟩ := List.mem_iff_getElem.mp hp
    refine ⟨i, hi, ?_⟩
    rw [hmapped i hi]
    dsimp only
    rw [List.getD_eq_getElem _ _ hi, hpi, hpy]
    ring

/-- Concrete instance of C4: two points, multiplier 2, ground offset 3. -/
theorem c4_witness :
    (trackMeshPoints c4track 0 2 3).length = (sfProcessedPoints c4track 0).length ∧
    (∀ i, i < (sfProcessedPoints c4track 0).length →
      (trackMeshPoints c4track 0 2 3).getD i dfltVec
        = ⟨((sfProcessedPoints c4track 0).getD i dfltPoint).x,
           ((sfProcessedPoints c4track 0).getD i dfltPoint).y * 2
             - (sfMinY (sfProcessedPoints c4track 0) * 2 - 3),
           ((sfProcessedPoints c4track 0).getD i dfltPoint).z⟩) ∧
    (∀ i, i < (sfProcessedPoints c4track 0).length →
      (3 : ℚ) ≤ ((trackMeshPoints c4track 0 2 3).getD i dfltVec).y) ∧
    (∃ i, i < (sfProcessedPoints c4track 0).length ∧
      ((trackMeshPoints c4track 0 2 3).getD i dfltVec).y = 3) :=
  c4_trackMesh_elevation c4track 0 2 3 (by decide) (by norm_num)

lemma ribbonPair_eq (p next : Vec3) (w : ℚ) (ν : Vec3 → ℚ)
    (hn1 : ν ⟨next.x - p.x, next.y - p.y, next.z - p.z⟩ ≠ 0)
    (hn2 : ν ⟨-((next.z - p.z) / ν ⟨next.x - p.x, next.y - p.y, next.z - p.z⟩), 0,
        (next.x - p.x) / ν ⟨next.x - p.x, next.y - p.y, next.z - p.z⟩⟩ ≠ 0) :
    ribbonPair p next w ν
      = (⟨p.x + w * (1 / 2) * (-((next.z - p.z) / ν ⟨next.x - p.x, next.y - p.y, next.z - p.z⟩)
              / ν ⟨-((next.z - p.z) / ν ⟨next.x - p.x, next.y - p.y, next.z - p.z⟩), 0,
                  (next.x - p.x) / ν ⟨next.x - p.x, next.y - p.y, next.z - p.z⟩⟩),
          p.y + w * (1 / 2) * (0
              / ν ⟨-((next.z - p.z) / ν ⟨next.x - p.x, next.y - p.y, next.z - p.z⟩), 0,
                  (next.x - p.x) / ν ⟨next.x - p.x, next.y - p.y, next.z - p.z⟩⟩),
          p.z + w * (1 / 2) * ((next.x - p.x) / ν ⟨next.x - p.x, next.y - p.y, next.z - p.z⟩
              / ν ⟨-((next.z - p.z) / ν ⟨next.x - p.x, next.y - p.y, next.z - p.z⟩), 0,
                  (next.x - p.x) / ν ⟨next.x - p.x, next.y - p.y, next.z - p.z⟩⟩)⟩,
         ⟨p.x + -(w * (1 / 2)) * (-((next.z - p.z) / ν ⟨next.x - p.x, next.y - p.y, next.z - p.z⟩)
              / ν ⟨-((next.z - p.z) / ν ⟨next.x - p.x, next.y - p.y, next.z - p.z⟩), 0,
                  (next.x - p.x) / ν ⟨next.x - p.x, next.y - p.y, next.z - p.z⟩⟩),
          p.y + -(w * (1 / 2)) * (0
              / ν ⟨-((next.z - p.z) / ν ⟨next.x - p.x, next.y - p.y, next.z - p.z⟩), 0,
                  (next.x - p.x) / ν ⟨next.x - p.x, next.y - p.y, next.z - p.z⟩⟩),
          p.z + -(w * (1 / 2)) * ((next.x - p.x) / ν ⟨next.x - p.x, next.y - p.y, next.z - p.z⟩
              / ν ⟨-((next.z - p.z) / ν ⟨next.x - p.x, next.y - p.y, next.z - p.z⟩), 0,
                  (next.x - p.x) / ν ⟨next.x - p.x, next.y - p.y, next.z - p.z⟩⟩)⟩) := by
  unfold ribbonPair normalizeWith
  dsimp only [Vec3.sub, Vec3.add, Vec3.smul]
  rw [if_neg hn1]
  dsimp only
  rw [if_neg hn2]

lemma ribbonPair_spec (p next : Vec3) (w : ℚ) (ν : Vec3 → ℚ)
    (hd : ¬ (next.x - p.x = 0 ∧ next.z - p.z = 0))
    (h1 : IsNormOf ⟨next.x - p.x, next.y - p.y, next.z - p.z⟩
      (ν ⟨next.x - p.x, next.y - p.y, next.z - p.z⟩))
    (h2 : IsNormOf ⟨-((next.z - p.z) / ν ⟨next.x - p.x, next.y - p.y, next.z - p.z⟩), 0,
        (next.x - p.x) / ν ⟨next.x - p.x, next.y - p.y, next.z - p.z⟩⟩
      (ν ⟨-((next.z - p.z) / ν ⟨next.x - p.x, next.y - p.y, next.z - p.z⟩), 0,
        (next.x - p.x) / ν ⟨next.x - p.x, next.y - p.y, next.z - p.z⟩⟩)) :
    (normalizeWith ⟨-((next.z - p.z) / ν ⟨next.x - p.x, next.y - p.y, next.z - p.z⟩), 0,
        (next.x - p.x) / ν ⟨next.x - p.x, next.y - p.y, next.z - p.z⟩⟩
      (ν ⟨-((next.z - p.z) / ν ⟨next.x - p.x, next.y - p.y, next.z - p.z⟩), 0,
        (next.x - p.x) / ν ⟨next.x - p.x, next.y - p.y, next.z - p.z⟩⟩)).x * (next.x - p.x)
      + (normalizeWith ⟨-((next.z - p.z) / ν ⟨next.x - p.x, next.y - p.y, next.z - p.z⟩), 0,
        (next.x - p.x) / ν ⟨next.x - p.x, next.y - p.y, next.z - p.z⟩⟩
      (ν ⟨-((next.z - p.z) / ν ⟨next.x - p.x, next.y - p.y, next.z - p.z⟩), 0,
        (next.x - p.x) / ν ⟨next.x - p.x, next.y - p.y, next.z - p.z⟩⟩)).z * (next.z - p.z) = 0 ∧
    RibbonCrossSectionOK p (ribbonPair p next w ν).1 (ribbonPair p next w ν).2 w
      (normalizeWith ⟨-((next.z - p.z) / ν ⟨next.x - p.x, next.y - p.y, next.z - p.z⟩), 0,
        (next.x - p.x) / ν ⟨next.x - p.x, next.y - p.y, next.z - p.z⟩⟩
      (ν ⟨-((next.z - p.z) / ν ⟨next.x - p.x, next.y - p.y, next.z - p.z⟩), 0,
        (next.x - p.x) / ν ⟨next.x - p.x, next.y - p.y, next.z - p.z⟩⟩)) := by
  obtain ⟨h1a, h1b⟩ := h1
  obtain ⟨h2a, h2b⟩ := h2
  dsimp only at h1b h2b
  have hsq : 0 < (next.x - p.x) * (next.x - p.x) + (next.z - p.z) * (next.z - p.z) := by
    rcases not_and_or.mp hd with h | h
    · nlinarith [mul_self_pos.mpr h, mul_self_nonneg (next.z - p.z)]
    · nlinarith [mul_self_pos.mpr h, mul_self_nonneg (next.x - p.x)]
  have hn1 : ν ⟨next.x - p.x, next.y - p.y, next.z - p.z⟩ ≠ 0 := by
    intro h0
    rw [h0] at h1b
    nlinarith [hsq, mul_self_nonneg (next.y - p.y)]
  have hn2 : ν ⟨-((next.z - p.z) / ν ⟨next.x - p.x, next.y - p.y, next.z - p.z⟩), 0,
      (next.x - p.x) / ν ⟨next.x - p.x, next.y - p.y, next.z - p.z⟩⟩ ≠ 0 := by
    intro h0
    rw [h0] at h2b
    field_simp [hn1] at h2b
    nlinarith [hsq, h2b]
  have hu : normalizeWith ⟨-((next.z - p.z) / ν ⟨next.x - p.x, next.y - p.y, next.z - p.z⟩), 0,
      (next.x - p.x) / ν ⟨next.x - p.x, next.y - p.y, next.z - p.z⟩⟩
      (ν ⟨-((next.z - p.z) / ν ⟨next.x - p.x, next.y - p.y, next.z - p.z⟩), 0,
        (next.x - p.x) / ν ⟨next.x - p.x, next.y - p.y, next.z - p.z⟩⟩)
      = ⟨-((next.z - p.z) / ν ⟨next.x - p.x, next.y - p.y, next.z - p.z⟩)
            / ν ⟨-((next.z - p.z) / ν ⟨next.x - p.x, next.y - p.y, next.z - p.z⟩), 0,
              (next.x - p.x) / ν ⟨next.x - p.x, next.y - p.y, next.z - p.z⟩⟩,
          0 / ν ⟨-((next.z - p.z) / ν ⟨next.x - p.x, next.y - p.y, next.z - p.z⟩), 0,
              (next.x - p.x) / ν ⟨next.x - p.x, next.y - p.y, next.z - p.z⟩⟩,
          (next.x - p.x) / ν ⟨next.x - p.x, next.y - p.y, next.z - p.z⟩
            / ν ⟨-((next.z - p.z) / ν ⟨next.x - p.x, next.y - p.y, next.z - p.z⟩), 0,
              (next.x - p.x) / ν ⟨next.x - p.x, next.y - p.y, next.z - p.z⟩⟩⟩ := by
    unfold normalizeWith
    rw [if_neg hn2]
  rw [ribbonPair_eq p next w ν hn1 hn2, hu]
  unfold RibbonCrossSectionOK Vec3.add Vec3.smul
  dsimp only
  revert h2b hsq hn1 hn2
  generalize ν ⟨-((next.z - p.z) / ν ⟨next.x - p.x, next.y - p.y, next.z - p.z⟩), 0,
      (next.x - p.x) / ν ⟨next.x - p.x, next.y - p.y, next.z - p.z⟩⟩ = n2
  generalize ν ⟨next.x - p.x, next.y - p.y, next.z - p.z⟩ = n1
  generalize next.x - p.x = dx
  generalize next.z - p.z = dz
  intro h2b hsq hn1 hn2
  have hunit : -(dz / n1) / n2 * (-(dz / n1) / n2) + 0 / n2 * (0 / n2)
      + dx / n1 / n2 * (dx / n1 / n2) = 1 := by
    field_simp [hn1, hn2] at h2b ⊢
    nlinarith [h2b]
  refine ⟨?_, ?_, ?_, zero_div n2, hunit, ?_, ?_, ?_, ?_, ?_, ?_⟩
  · field_simp [hn1, hn2]
    try left
    try ring
  · rfl
  · rfl
  · ring
  · ring
  · ring
  · ring
  · ring
  · linear_combination (w ^ 2) * hunit

/-- Claim C5 (amended): for every sampled point whose successor differs
from it in `x` or `z`, the ribbon loop places exactly two vertices,
`point ± (w/2)·u` for the horizontal unit vector `u` along
`(-d.z, 0, d.x)` (`d` the normalized direction to the successor, so `u`
is horizontally perpendicular to it): both keep the point's `y`, the
cross-section is centred on the point and its squared length is `w²`.
The `Math.sqrt` lengths used by the two normalizations are supplied by
the oracle `ν`, constrained by `IsNormOf`.  (When the successor differs
only in `y`, the claim fails: see the counterexample.) -/
theorem c5_ribbon_vertices (samples : List Vec3) (w : ℚ) (ν : Vec3 → ℚ) (i : ℕ)
    (p next : Vec3) (hi : i < samples.length)
    (hp : p = samples.getD i dfltVec)
    (hnext : next = samples.getD ((i + 1) % samples.length) dfltVec)
    (hd : ¬ (next.x - p.x = 0 ∧ next.z - p.z = 0))
    (h1 : IsNormOf ⟨next.x - p.x, next.y - p.y, next.z - p.z⟩
      (ν ⟨next.x - p.x, next.y - p.y, next.z - p.z⟩))
    (h2 : IsNormOf ⟨-((next.z - p.z) / ν ⟨next.x - p.x, next.y - p.y, next.z - p.z⟩), 0,
        (next.x - p.x) / ν ⟨next.x - p.x, next.y - p.y, next.z - p.z⟩⟩
      (ν ⟨-((next.z - p.z) / ν ⟨next.x - p.x, next.y - p.y, next.z - p.z⟩), 0,
        (next.x - p.x) / ν ⟨next.x - p.x, next.y - p.y, next.z - p.z⟩⟩)) :
    (ribbonPairs samples w ν).getD i (dfltVec, dfltVec) = ribbonPair p next w ν ∧
    (normalizeWith ⟨-((next.z - p.z) / ν ⟨next.x - p.x, next.y - p.y, next.z - p.z⟩), 0,
        (next.x - p.x) / ν ⟨next.x - p.x, next.y - p.y, next.z - p.z⟩⟩
      (ν ⟨-((next.z - p.z) / ν ⟨next.x - p.x, next.y - p.y, next.z - p.z⟩), 0,
        (next.x - p.x) / ν ⟨next.x - p.x, next.y - p.y, next.z - p.z⟩⟩)).x * (next.x - p.x)
      + (normalizeWith ⟨-((next.z - p.z) / ν ⟨next.x - p.x, next.y - p.y, next.z - p.z⟩), 0,
        (next.x - p.x) / ν ⟨next.x - p.x, next.y - p.y, next.z - p.z⟩⟩
      (ν ⟨-((next.z - p.z) / ν ⟨next.x - p.x, next.y - p.y, next.z - p.z⟩), 0,
        (next.x - p.x) / ν ⟨next.x - p.x, next.y - p.y, next.z - p.z⟩⟩)).z * (next.z - p.z) = 0 ∧
    RibbonCrossSectionOK p (ribbonPair p next w ν).1 (ribbonPair p next w ν).2 w
      (normalizeWith ⟨-((next.z - p.z) / ν ⟨next.x - p.x, next.y - p.y, next.z - p.z⟩), 0,
        (next.x - p.x) / ν ⟨next.x - p.x, next.y - p.y, next.z - p.z⟩⟩
      (ν ⟨-((next.z - p.z) / ν ⟨next.x - p.x, next.y - p.y, next.z - p.z⟩), 0,
        (next.x - p.x) / ν ⟨next.x - p.x, next.y - p.y, next.z - p.z⟩⟩)) := by
  obtain ⟨horth, hok⟩ := ribbonPair_spec p next w ν hd h1 h2
  refine ⟨?_, horth, hok⟩
  rw [ribbonPairs, getD_map_range samples.length i _ _ hi, hp, hnext]

/-- Concrete instance of C5: samples `(0,0,0)` and `(3,0,4)`, whose
direction has rational length 5 and whose horizontal perpendicular is the
unit vector `(-4/5, 0, 3/5)`. -/
theorem c5_witness :
    (ribbonPairs c5samples 2 c5nu).getD 0 (dfltVec, dfltVec)
      = ribbonPair ⟨0, 0, 0⟩ ⟨3, 0, 4⟩ 2 c5nu ∧
    (normalizeWith ⟨-((4 - 0) / c5nu ⟨3 - 0, 0 - 0, 4 - 0⟩), 0,
        (3 - 0) / c5nu ⟨3 - 0, 0 - 0, 4 - 0⟩⟩
      (c5nu ⟨-((4 - 0) / c5nu ⟨3 - 0, 0 - 0, 4 - 0⟩), 0,
        (3 - 0) / c5nu ⟨3 - 0, 0 - 0, 4 - 0⟩⟩)).x * (3 - 0)
      + (normalizeWith ⟨-((4 - 0) / c5nu ⟨3 - 0, 0 - 0, 4 - 0⟩), 0,
        (3 - 0) / c5nu ⟨3 - 0, 0 - 0, 4 - 0⟩⟩
      (c5nu ⟨-((4 - 0) / c5nu ⟨3 - 0, 0 - 0, 4 - 0⟩), 0,
        (3 - 0) / c5nu ⟨3 - 0, 0 - 0, 4 - 0⟩⟩)).z * (4 - 0) = 0 ∧
    RibbonCrossSectionOK ⟨0, 0, 0⟩ (ribbonPair ⟨0, 0, 0⟩ ⟨3, 0, 4⟩ 2 c5nu).1
      (ribbonPair ⟨0, 0, 0⟩ ⟨3, 0, 4⟩ 2 c5nu).2 2
      (normalizeWith ⟨-((4 - 0) / c5nu ⟨3 - 0, 0 - 0, 4 - 0⟩), 0,
        (3 - 0) / c5nu ⟨3 - 0, 0 - 0, 4 - 0⟩⟩
      (c5nu ⟨-((4 - 0) / c5nu ⟨3 - 0, 0 - 0, 4 - 0⟩), 0,
        (3 - 0) / c5nu ⟨3 - 0, 0 - 0, 4 - 0⟩⟩)) :=
  c5_ribbon_vertices c5samples 2 c5nu 0 ⟨0, 0, 0⟩ ⟨3, 0, 4⟩ (by decide) rfl rfl
    (by norm_num)
    (by norm_num [c5nu, IsNormOf])
    (by norm_num [c5nu, IsNormOf])

/-- Claim C5 as stated fails for a distinct but purely vertical
successor: with `p = (0,0,0)`, `next = (0,1,0)` and `w = 2`, the
horizontal perpendicular `(-d.z, 0, d.x)` is the zero vector, THREE's
`normalize` leaves it zero, and both vertices equal `p`: the
cross-section has squared width `0`, not `w² = 4`. -/
theorem c5_counterexample :
    (⟨0, 1, 0⟩ : Vec3) ≠ (⟨0, 0, 0⟩ : Vec3) ∧
    IsNormOf ⟨0 - 0, 1 - 0, 0 - 0⟩ (c5cexnu ⟨0 - 0, 1 - 0, 0 - 0⟩) ∧
    IsNormOf ⟨-((0 - 0) / c5cexnu ⟨0 - 0, 1 - 0, 0 - 0⟩), 0,
        (0 - 0) / c5cexnu ⟨0 - 0, 1 - 0, 0 - 0⟩⟩
      (c5cexnu ⟨-((0 - 0) / c5cexnu ⟨0 - 0, 1 - 0, 0 - 0⟩), 0,
        (0 - 0) / c5cexnu ⟨0 - 0, 1 - 0, 0 - 0⟩⟩) ∧
    (ribbonPair ⟨0, 0, 0⟩ ⟨0, 1, 0⟩ 2 c5cexnu).1
      = (ribbonPair ⟨0, 0, 0⟩ ⟨0, 1, 0⟩ 2 c5cexnu).2 ∧
    ((ribbonPair ⟨0, 0, 0⟩ ⟨0, 1, 0⟩ 2 c5cexnu).1.x
        - (ribbonPair ⟨0, 0, 0⟩ ⟨0, 1, 0⟩ 2 c5cexnu).2.x) ^ 2
      + ((ribbonPair ⟨0, 0, 0⟩ ⟨0, 1, 0⟩ 2 c5cexnu).1.y
        - (ribbonPair ⟨0, 0, 0⟩ ⟨0, 1, 0⟩ 2 c5cexnu).2.y) ^ 2
      + ((ribbonPair ⟨0, 0, 0⟩ ⟨0, 1, 0⟩ 2 c5cexnu).1.z
        - (ribbonPair ⟨0, 0, 0⟩ ⟨0, 1, 0⟩ 2 c5cexnu).2.z) ^ 2 ≠ 2 ^ 2 := by
  have hpair : ribbonPair ⟨0, 0, 0⟩ ⟨0, 1, 0⟩ 2 c5cexnu
      = (⟨0, 0, 0⟩, ⟨0, 0, 0⟩) := by
    norm_num [ribbonPair, normalizeWith, c5cexnu, Vec3.sub, Vec3.add, Vec3.smul, Vec3.mk.injEq]
  refine ⟨by norm_num [Vec3.mk.injEq], by norm_num [c5cexnu, IsNormOf, Vec3.mk.injEq],
    by norm_num [c5cexnu, IsNormOf, Vec3.mk.injEq], ?_, ?_⟩
  · rw [hpair]
  · rw [hpair]
    norm_num

end Track
